import Mathlib

/-!
Verification development for the pairs-trading signal and backtest engine of
the `virgo_module` repository (`virgo_app/virgo_modules/src/re_utils.py`).

The Python source operates on pandas dataframes whose rows are in ascending
date order with unique dates (the data-model invariant of the spec).  We embed
each dataframe column as a `List` in row order, a float that may be NaN as an
`Option ℚ` (`none` = NaN / missing), and the pandas primitives used by the
source (`groupby(...).cumcount()`, `fillna(method='ffill')`, `rolling`,
`np.mean`, `np.median`) as explicit list functions below.
-/

/-- `seqOpt l = some xs` iff no entry of `l` is `none`; models the fact that a
float aggregation (np.mean / np.median) is NaN as soon as one input is NaN. -/
def seqOpt : List (Option ℚ) → Option (List ℚ)
  | [] => some []
  | none :: _ => none
  | some x :: rest => (seqOpt rest).map (fun xs => x :: xs)

/-- Helper for `cumcountBy`: `seen` is the list of keys already scanned. -/
def cumcountByAux {α : Type} [DecidableEq α] (seen : List α) : List α → List ℕ
  | [] => []
  | k :: rest => seen.count k :: cumcountByAux (seen ++ [k]) rest

/-- pandas `groupby(keys).cumcount()`: for each row, the number of earlier rows
with the same key (0-based). -/
def cumcountBy {α : Type} [DecidableEq α] (keys : List α) : List ℕ :=
  cumcountByAux [] keys

/-- Helper for `cumcountByOpt`. -/
def cumcountByOptAux {α : Type} [DecidableEq α] (seen : List α) :
    List (Option α) → List (Option ℕ)
  | [] => []
  | none :: rest => none :: cumcountByOptAux seen rest
  | some k :: rest => some (seen.count k) :: cumcountByOptAux (seen ++ [k]) rest

/-- pandas `groupby(keys).cumcount()` where the key column may contain NaN
(`none`): NaN-keyed rows belong to no group and get a NaN cumcount. -/
def cumcountByOpt {α : Type} [DecidableEq α] (keys : List (Option α)) :
    List (Option ℕ) :=
  cumcountByOptAux [] keys

/-- Helper for `ffill`: `last` is the last non-missing value seen so far. -/
def ffillAux {α : Type} (last : Option α) : List (Option α) → List (Option α)
  | [] => []
  | some v :: rest => some v :: ffillAux (some v) rest
  | none :: rest => last :: ffillAux last rest

/-- pandas `fillna(method='ffill')`: carry the last non-missing value forward. -/
def ffill {α : Type} (xs : List (Option α)) : List (Option α) :=
  ffillAux none xs

/-- Helper for `runningCount`. -/
def runningCountAux (n : ℕ) : List Bool → List ℕ
  | [] => []
  | b :: rest => (if b then n + 1 else n) :: runningCountAux (if b then n + 1 else n) rest

/-- The running (1-based, inclusive) count of `true` entries: the spec-side
"running count of break events" that chain ids are claimed to equal. -/
def runningCount (bs : List Bool) : List ℕ :=
  runningCountAux 0 bs

/- ----------------------------------------------------------------- -/
/- Chain detection (`pair_finder.evaluate_signal` lines 127-143 and the
   verbatim duplicate in `pair_finder.create_backtest_signal` lines 222-238).
   Input: the dates (as integer day numbers) of the signal-bearing rows, in
   ascending order.                                                          -/
/- ----------------------------------------------------------------- -/

/-- `df['span'] = (Date_ - lag_Date).dt.days - 1`: `none` on the first row
(`lag_Date` is NaT there). -/
def spans : List ℤ → List (Option ℤ)
  | [] => []
  | d :: rest => none :: List.zipWith (fun prev cur => some (cur - prev - 1)) (d :: rest) rest

/-- `df['break'] = np.where(span > 3, 1, 0)` then `np.where(span.isna(), 1, break)`. -/
def breaks (dates : List ℤ) : List Bool :=
  (spans dates).map (fun s => match s with
    | none => true
    | some v => decide (v > 3))

/-- Helper for `gapBreaks`. -/
def gapBreaksAux (prev : ℤ) : List ℤ → List Bool
  | [] => []
  | c :: rest => decide (c - prev > 4) :: gapBreaksAux c rest

/-- Spec-side reformulation of the break rule: a break at the first row, and at
every row whose date differs from the previous row's date by more than 4
calendar days. -/
def gapBreaks : List ℤ → List Bool
  | [] => []
  | d :: rest => true :: gapBreaksAux d rest

/-- `chain_id` before forward-filling: `groupby('break').cumcount() + 1`, kept
only on break rows (`np.where(break == 1, chain_id, nan)`). -/
def chainIdRaw (dates : List ℤ) : List (Option ℕ) :=
  List.zipWith (fun b c => if b then some (c + 1) else none)
    (breaks dates) (cumcountBy (breaks dates))

/-- `df['chain_id']` after `fillna(method='ffill')`. -/
def chain_id (dates : List ℤ) : List (Option ℕ) :=
  ffill (chainIdRaw dates)

/-- `df['internal_rn'] = df.groupby('chain_id').cumcount() + 1` (date order). -/
def internal_rn (dates : List ℤ) : List (Option ℕ) :=
  (cumcountByOpt (chain_id dates)).map (Option.map (· + 1))

/-- `df['inv_internal_rn']`: the same cumcount taken over descending dates;
with unique ascending dates that order is the reversed list. -/
def inv_internal_rn (dates : List ℤ) : List (Option ℕ) :=
  ((cumcountByOpt (chain_id dates).reverse).map (Option.map (· + 1))).reverse

/-- `df['signal_type']`: `'up'` or `'down'`. -/
inductive SigType : Type
  | up : SigType
  | down : SigType
deriving DecidableEq

/-- One labeled row of the chain detector's output. -/
structure ChainRow : Type where
  date : ℤ
  sig : SigType
  chainId : Option ℕ
  internalRn : Option ℕ
  firstInChain : Bool
  lastInChain : Bool
deriving DecidableEq

/-- The chain detector, applied to the signal-bearing rows `(date, signal_type)`
in ascending date order.  This block appears verbatim both in
`evaluate_signal` and in `create_backtest_signal`. -/
def chainDetect (rows : List (ℤ × SigType)) : List ChainRow :=
  let dates := rows.map Prod.fst
  let cid := chain_id dates
  let rn := internal_rn dates
  let inv := inv_internal_rn dates
  rows.enum.map (fun p =>
    { date := p.2.1
      sig := p.2.2
      chainId := cid.getD p.1 none
      internalRn := rn.getD p.1 none
      firstInChain := decide (rn.getD p.1 none = some 1)
      lastInChain := decide (inv.getD p.1 none = some 1) })

/- ----------------------------------------------------------------- -/
/- Rolling z-score (`pair_finder.produce_zscore`, lines 57-74).              -/
/- ----------------------------------------------------------------- -/

/-- The `w` observations ending at index `i` (defined when `w ≤ i + 1`). -/
def windowAt (w : ℕ) (xs : List ℚ) (i : ℕ) : List ℚ :=
  (xs.take (i + 1)).drop (i + 1 - w)

/-- Mean of a list of rationals (`0` on the empty list, like `sum/len` with
the junk value `x / 0 = 0` of `ℚ`; never reached with a full window). -/
def listMean (l : List ℚ) : ℚ :=
  l.sum / l.length

/-- Sample variance with `ddof = 1`, the square of the pandas rolling `std`.
pandas' `std` is the square root of this value; representing the variance
exactly in `ℚ` avoids irrational square roots while determining `std`. -/
def listSvar (l : List ℚ) : ℚ :=
  ((l.map (fun x => (x - listMean l) ^ 2)).sum) / ((l.length - 1 : ℕ) : ℚ)

/-- `series.rolling(window=w).mean()`-style application of a window statistic:
NaN (`none`) until `w` observations are available. -/
def rollingApply (f : List ℚ → ℚ) (w : ℕ) (xs : List ℚ) : List (Option ℚ) :=
  (List.range xs.length).map (fun i =>
    if i + 1 < w then none else some (f (windowAt w xs i)))

/-- An IEEE-float z-score value in exact form: NaN, a signed infinity, or the
finite value `num / sqrt var` with `var > 0` (kept as the exact pair
`(num, var)` since `sqrt var` is irrational in general). -/
inductive Fval : Type
  | nan : Fval
  | inf : Bool → Fval
  | fin : ℚ → ℚ → Fval
deriving DecidableEq

/-- Float division `num / std` where `std = sqrt var ≥ 0`: `0 / 0` is NaN,
`num / 0` with `num ≠ 0` is a signed infinity, otherwise finite. -/
def zdiv (num var : ℚ) : Fval :=
  if var = 0 then (if num = 0 then Fval.nan else Fval.inf (decide (num > 0)))
  else Fval.fin num var

/-- `produce_zscore`: `x = spread.rolling(window=1).mean()`,
`mean = spread.rolling(window).mean()`, `std = spread.rolling(window).std()`,
`z_score = (x - mean)/std`.  A missing operand makes the result NaN. -/
def produce_zscore (window : ℕ) (spread : List ℚ) : List Fval :=
  (List.range spread.length).map (fun i =>
    match (rollingApply listMean 1 spread).getD i none,
          (rollingApply listMean window spread).getD i none,
          (rollingApply listSvar window spread).getD i none with
    | some x, some m, some v => zdiv (x - m) v
    | _, _, _ => Fval.nan)

/- ----------------------------------------------------------------- -/
/- Cointegration (`calculate_cointegration`, lines 33-44).                   -/
/- ----------------------------------------------------------------- -/

/-- The error kinds of the spec that the cointegration stage can raise. -/
inductive CErr : Type
  | numericalError : CErr
deriving DecidableEq

/-- Modelled from the spec: "zero variance (regression undefined)" means the
series is constant (its exact variance is zero). -/
def zeroVar (l : List ℚ) : Bool :=
  l.all (fun x => x = listMean l)

/-- Modelled from the spec: `statsmodels.tsa.stattools.coint` is external
library code (not in `src/`); per the spec it "fails with `NumericalError` if
either series contains non-finite values or zero variance".  `stat` abstracts
the numeric result `(t_statistic, p_value, critical_value_5pct)` on clean
input; a non-finite entry is a `none`. -/
def cointCall (stat : List ℚ → List ℚ → ℚ × ℚ × ℚ)
    (s1 s2 : List (Option ℚ)) : Except CErr (ℚ × ℚ × ℚ) :=
  match seqOpt s1, seqOpt s2 with
  | some c1, some c2 =>
      if zeroVar c1 ∨ zeroVar c2 then Except.error CErr.numericalError
      else Except.ok (stat c1 c2)
  | _, _ => Except.error CErr.numericalError

/-- Modelled from the spec: `sm.OLS(series_1, series_2).fit()` (external
library code, not in `src/`), failing the same way on degenerate input;
`stat` abstracts the fitted no-intercept slope. -/
def olsCall (stat : List ℚ → List ℚ → ℚ)
    (s1 s2 : List (Option ℚ)) : Except CErr ℚ :=
  match seqOpt s1, seqOpt s2 with
  | some c1, some c2 =>
      if zeroVar c1 ∨ zeroVar c2 then Except.error CErr.numericalError
      else Except.ok (stat c1 c2)
  | _, _ => Except.error CErr.numericalError

/-- `calculate_cointegration`: run `coint`, take `coint_t = res[0]`,
`p_value = res[1]`, `critical_value = res[2][1]` (the 5% level), fit OLS for
the hedge ratio, and set `coint_flag = 1 if p_value < 0.05 and
coint_t < critical_value else 0`.  An exception from either library call
propagates immediately (there is no handler and no retry in the source), so
no partial result is ever produced. -/
def calculate_cointegration (cstat : List ℚ → List ℚ → ℚ × ℚ × ℚ)
    (ostat : List ℚ → List ℚ → ℚ)
    (s1 s2 : List (Option ℚ)) : Except CErr (ℕ × ℚ) :=
  match cointCall cstat s1 s2 with
  | Except.error e => Except.error e
  | Except.ok res =>
      match olsCall ostat s1 s2 with
      | Except.error e => Except.error e
      | Except.ok hedge =>
          Except.ok (if res.2.1 < 1/20 ∧ res.1 < res.2.2 then 1 else 0, hedge)

/- ----------------------------------------------------------------- -/
/- Statistical validation (`pair_finder.evaluate_signal`, lines 146-186).    -/
/- ----------------------------------------------------------------- -/

/-- `np.mean` over a float list: NaN on the empty list and as soon as one
entry is NaN, otherwise the arithmetic mean. -/
def fmean (l : List (Option ℚ)) : Option ℚ :=
  match seqOpt l with
  | none => none
  | some xs => if xs = [] then none else some (xs.sum / xs.length)

/-- Ascending sort used by the median. -/
def sortQ (l : List ℚ) : List ℚ :=
  l.insertionSort (· ≤ ·)

/-- The median of an already sorted list (numpy convention: middle element for
odd length, average of the two middle elements for even length). -/
def medianOfSorted (l : List ℚ) : ℚ :=
  if l.length % 2 = 1 then l.getD (l.length / 2) 0
  else (l.getD (l.length / 2 - 1) 0 + l.getD (l.length / 2) 0) / 2

/-- `np.median` over a clean float list: NaN on the empty list. -/
def npMedianList (l : List ℚ) : Option ℚ :=
  if l = [] then none else some (medianOfSorted (sortQ l))

/-- `np.median` over a float list that may contain NaN: NaN if empty or if any
entry is NaN. -/
def npMedianOpt (l : List (Option ℚ)) : Option ℚ :=
  match seqOpt l with
  | none => none
  | some xs => npMedianList xs

/-- Float comparison `a < b` where `a` may be NaN: NaN compares false. -/
def oLt (a : Option ℚ) (b : ℚ) : Bool :=
  match a with
  | none => false
  | some x => decide (x < b)

/-- Float comparison `a > b` where `a` may be NaN: NaN compares false. -/
def oGt (a : Option ℚ) (b : ℚ) : Bool :=
  match a with
  | none => false
  | some x => decide (x > b)

/-- One row of the chained in-sample dataframe as `evaluate_signal` sees it at
line 152: its signal type, its `last_in_chain` label, and its forward returns
(one `Option ℚ` per horizon; `none` is the NaN of a shifted-out return). -/
structure VRow : Type where
  sig : SigType
  lastInChain : Bool
  rets : List (Option ℚ)
deriving DecidableEq

/-- The melted and NaN-dropped sample for one signal type at one horizon:
`df_melt[(df_melt.time == evalx) & (df_melt.signal_type == s)].value.values`
restricted to chain-terminal rows (`last_in_chain == True`) with NaN dropped. -/
def sample (rows : List VRow) (s : SigType) (h : ℕ) : List ℚ :=
  rows.filterMap (fun r =>
    if r.lastInChain = true ∧ r.sig = s then r.rets.getD h none else none)

/-- The quantities `evaluate_signal` computes from the melted samples. -/
structure EvalResult : Type where
  pscores : List (Option ℚ)
  mediansDown : List (Option ℚ)
  validations : List Bool
  medianSignalTypeEval : Bool
  nullHoEval : Bool
  meanMedianReturn : Option ℚ
deriving DecidableEq

/-- The statistics block of `evaluate_signal` (default `signal_position =
False` path), for `nh` horizons.  `tt` abstracts
`scipy.stats.ttest_ind(sample1, sample2).pvalue` (external library code);
`none` is a NaN p-value.  For each horizon the code appends
`ttest pvalue`, `median_down`, and the two directional diagnostics
`median_up < 0`, `median_down > 0`; then
`null_ho_eval = threshold > np.mean(p_scores)` and
`self.mean_median_return = np.median(medians_down) if null_ho_eval else nan`.
With no horizons the code raises `IndexError` at `validations[0]` before
assigning any result, modelled as `none`. -/
def evaluateSignalStats (tt : List ℚ → List ℚ → Option ℚ) (threshold : ℚ)
    (rows : List VRow) (nh : ℕ) : Option EvalResult :=
  if nh = 0 then none
  else
    let ps := (List.range nh).map (fun h =>
      tt (sample rows SigType.up h) (sample rows SigType.down h))
    let md := (List.range nh).map (fun h => npMedianList (sample rows SigType.down h))
    let vals := (List.range nh).flatMap (fun h =>
      [oLt (npMedianList (sample rows SigType.up h)) 0,
       oGt (npMedianList (sample rows SigType.down h)) 0])
    let accept := match fmean ps with
      | none => false
      | some m => decide (threshold > m)
    some
      { pscores := ps
        mediansDown := md
        validations := vals
        medianSignalTypeEval := decide (vals.count (vals.headD false) = vals.length)
        nullHoEval := accept
        meanMedianReturn := if accept then npMedianOpt md else none }

/- ----------------------------------------------------------------- -/
/- Backtest flags (`pair_finder.create_backtest_signal`, lines 209-248).     -/
/- ----------------------------------------------------------------- -/

/-- One row of the out-of-sample tail window `df1 = self.df.iloc[-test_size:]`:
its date and its raw `up_pair_signal` / `low_pair_signal` flags. -/
structure TRow : Type where
  date : ℤ
  up : Bool
  low : Bool
deriving DecidableEq

/-- `signal_type = np.where(up == 1, 'up', np.where(low == 1, 'down', None))`. -/
def deriveSignalType (up low : Bool) : Option SigType :=
  if up then some SigType.up else if low then some SigType.down else none

/-- `df2 = df2[~df2.signal_type.isna()]`: the signal-bearing rows of the tail. -/
def signalRows (tail : List TRow) : List (ℤ × SigType) :=
  tail.filterMap (fun r => (deriveSignalType r.up r.low).map (fun s => (r.date, s)))

/-- The strategy entry dates:
`df2[(df2.last_in_chain == True) & (df2.signal_type == 'down')]` after chain
detection on the tail's signal rows. -/
def entryDates (tail : List TRow) : List ℤ :=
  (chainDetect (signalRows tail)).filterMap (fun cr =>
    if cr.lastInChain = true ∧ cr.sig = SigType.down then some cr.date else none)

/-- The `last_in_chain` marker column of `dft` after the left merge on the
date index: `True` on entry dates, NaN elsewhere. -/
def btMarks (tail : List TRow) : List Bool :=
  tail.map (fun r => decide (r.date ∈ entryDates tail))

/-- `dft['chain_id']`: `groupby('last_in_chain').cumcount() + 1` (NaN keys get
NaN), kept only where the marker is `True`, then forward-filled. -/
def btChainId (tail : List TRow) : List (Option ℕ) :=
  let marks := btMarks tail
  let keys : List (Option Unit) := marks.map (fun m => if m then some () else none)
  ffill (List.zipWith
    (fun m c => match m, c with
      | true, some k => some (k + 1)
      | _, _ => none)
    marks (cumcountByOpt keys))

/-- `dft['internal_rn'] = dft.groupby('chain_id').cumcount() + 1`: NaN before
the first entry date. -/
def btInternalRn (tail : List TRow) : List (Option ℕ) :=
  (cumcountByOpt (btChainId tail)).map (Option.map (· + 1))

/-- `dft['flag'] = np.where(dft['internal_rn'] < days_strategy, 1, 0)`; a NaN
rank compares false and yields `0`. -/
def backtestFlags (tail : List TRow) (days_strategy : ℕ) : List ℕ :=
  (btInternalRn tail).map (fun rn =>
    match rn with
    | some k => if k < days_strategy then 1 else 0
    | none => 0)

/-- The spec's concrete backtest scenario: a 30-day tail window of consecutive
calendar days 1..30 whose only signal is a single "down" signal on day 10
(a singleton chain, so its last signal date is day 10). -/
def scenario30 : List TRow :=
  (List.range 30).map (fun k => { date := (k : ℤ) + 1, up := false, low := decide (k = 9) })

/- ----------------------------------------------------------------- -/
/- Concrete example inputs used by witnesses.                                -/
/- ----------------------------------------------------------------- -/

/-- A series that triggers the spec's `NumericalError`: it contains a
non-finite value or has zero variance. -/
def badInput (s : List (Option ℚ)) : Bool :=
  match seqOpt s with
  | none => true
  | some c => zeroVar c

/-- Example cointegration statistic: `(t, p, crit) = (-10, 0.01, -2)`. -/
def cstatEx : List ℚ → List ℚ → ℚ × ℚ × ℚ :=
  fun _ _ => (-10, 1/100, -2)

/-- Example OLS slope statistic. -/
def ostatEx : List ℚ → List ℚ → ℚ :=
  fun _ _ => 2

/-- Example t-test p-value function: NaN on an empty sample (as scipy's
`ttest_ind` is), `0.01` otherwise. -/
def ttEx : List ℚ → List ℚ → Option ℚ :=
  fun a b =>
    match a, b with
    | [], _ => none
    | _, [] => none
    | _ :: _, _ :: _ => some (1/100)

/-- Example chained rows: one terminal "up" row and one terminal "down" row,
with one forward-return horizon. -/
def rowsEx : List VRow :=
  [{ sig := SigType.up, lastInChain := true, rets := [some 2] },
   { sig := SigType.down, lastInChain := true, rets := [some (-1)] }]

/-- Example chained rows with no "up" signal at all. -/
def rowsDownOnly : List VRow :=
  [{ sig := SigType.down, lastInChain := true, rets := [some 1] }]

/-- The result `evaluate_signal`'s statistics block produces on `rowsEx` with
one horizon and threshold `0.05`. -/
def evalResEx : EvalResult :=
  { pscores := [some (1/100)]
    mediansDown := [some (-1)]
    validations := [false, false]
    medianSignalTypeEval := true
    nullHoEval := true
    meanMedianReturn := some (-1) }

/-- The result produced on `rowsDownOnly` (no "up" sample at the horizon). -/
def evalRes10 : EvalResult :=
  { pscores := [none]
    mediansDown := [some 1]
    validations := [false, true]
    medianSignalTypeEval := false
    nullHoEval := false
    meanMedianReturn := none }

/- ----------------------------------------------------------------- -/
/- Lemmas about the chain detector.                                          -/
/- ----------------------------------------------------------------- -/

lemma breaks_cons (d : ℤ) (rest : List ℤ) :
    breaks (d :: rest) =
      true :: (List.zipWith (fun prev cur => some (cur - prev - 1)) (d :: rest) rest).map
        (fun s : Option ℤ => match s with | none => true | some v => decide (v > 3)) := rfl

lemma breaks_cons_aux (rest : List ℤ) : ∀ d : ℤ,
    (List.zipWith (fun prev cur => some (cur - prev - 1)) (d :: rest) rest).map
      (fun s : Option ℤ => match s with | none => true | some v => decide (v > 3))
    = gapBreaksAux d rest := by
  induction rest with
  | nil => intro d; rfl
  | cons c rest ih =>
      intro d
      simp only [List.zipWith_cons_cons, List.map_cons, gapBreaksAux, ih c]
      have hd : (decide (c - d - 1 > 3)) = (decide (c - d > 4)) := by
        rw [decide_eq_decide]; omega
      rw [hd]

lemma breaks_eq_gapBreaks (dates : List ℤ) : breaks dates = gapBreaks dates := by
  cases dates with
  | nil => rfl
  | cons d rest =>
      rw [breaks_cons, breaks_cons_aux rest d]
      rfl

lemma breaks_length (dates : List ℤ) : (breaks dates).length = dates.length := by
  cases dates with
  | nil => rfl
  | cons d rest =>
      rw [breaks_cons]
      simp [List.length_zipWith]

lemma ffill_mask_cumcount (bs : List Bool) : ∀ (seen : List Bool) (n : ℕ),
    seen.count true = n →
    ffillAux (some n) (List.zipWith (fun b c => if b then some (c + 1) else none)
      bs (cumcountByAux seen bs))
    = (runningCountAux n bs).map some := by
  induction bs with
  | nil => intro seen n _; rfl
  | cons b rest ih =>
      intro seen n hn
      cases b with
      | true =>
          simp only [cumcountByAux, List.zipWith_cons_cons, if_true, hn,
            runningCountAux, ffillAux, List.map_cons]
          refine List.cons_eq_cons.mpr ⟨rfl, ?_⟩
          apply ih
          simp [List.count_append, hn]
      | false =>
          simp only [cumcountByAux, List.zipWith_cons_cons, runningCountAux,
            if_false, Bool.false_eq_true, ffillAux, List.map_cons]
          refine List.cons_eq_cons.mpr ⟨rfl, ?_⟩
          apply ih
          simp [List.count_append, hn]

lemma chain_id_eq_runningCount (dates : List ℤ) :
    chain_id dates = (runningCount (breaks dates)).map some := by
  cases dates with
  | nil => rfl
  | cons d rest =>
      simp only [chain_id, chainIdRaw, runningCount, breaks_cons, cumcountBy,
        cumcountByAux, List.count_nil, List.zipWith_cons_cons, if_true,
        List.nil_append, ffill, ffillAux, runningCountAux, List.map_cons]
      refine List.cons_eq_cons.mpr ⟨rfl, ?_⟩
      exact ffill_mask_cumcount _ [true] 1 (by decide)

lemma runningCountAux_get? (bs : List Bool) : ∀ (n i : ℕ), i < bs.length →
    (runningCountAux n bs).get? i = some (n + (bs.take (i + 1)).count true) := by
  induction bs with
  | nil => intro n i h; simp at h
  | cons b rest ih =>
      intro n i h
      cases i with
      | zero =>
          cases b <;> simp [runningCountAux, List.count_cons]
      | succ i =>
          have h' : i < rest.length := by simpa using h
          cases b with
          | true =>
              rw [runningCountAux]
              simp only [if_true, List.get?_cons_succ, ih (n + 1) i h',
                List.take_succ_cons, List.count_cons]
              congr 1
              all_goals simp
              all_goals omega
          | false =>
              rw [runningCountAux]
              simp only [if_false, Bool.false_eq_true, List.get?_cons_succ,
                ih n i h', List.take_succ_cons, List.count_cons]
              congr 1

lemma runningCountAux_head (m : ℕ) (x : Bool) (l : List Bool) :
    (runningCountAux m (x :: l)).head? = some (if x then m + 1 else m) := rfl

lemma runningCountAux_chain (bs : List Bool) : ∀ n : ℕ,
    List.Chain' (fun u v => u ≤ v ∧ (v = u ∨ v = u + 1)) (runningCountAux n bs) := by
  induction bs with
  | nil => intro n; simp [runningCountAux]
  | cons b rest ih =>
      intro n
      rw [runningCountAux, List.chain'_cons']
      refine ⟨?_, ih _⟩
      intro y hy
      cases rest with
      | nil => simp [runningCountAux] at hy
      | cons c rest2 =>
          rw [runningCountAux_head] at hy
          simp only [Option.mem_def, Option.some.injEq] at hy
          subst hy
          cases c <;> simp

lemma chainDetect_proj (rows : List (ℤ × SigType)) :
    (chainDetect rows).map (fun r => (r.date, r.sig)) = rows := by
  apply List.ext_get?
  intro i
  rw [chainDetect]
  simp only [List.get?_map, List.get?_enum, Option.map_map]
  cases rows.get? i with
  | none => rfl
  | some a => rfl

/- ----------------------------------------------------------------- -/
/- C1.  The source marks a break when `span = gap - 1 > 3`, i.e. when the
   calendar-day difference to the previous signal-bearing date exceeds 4,
   not 3: a gap of exactly 4 days does NOT break a chain.                    -/
/- ----------------------------------------------------------------- -/

/-- C1, counterexample: two signal dates 4 calendar days apart.  The gap
exceeds 3 days, yet the code marks no break at the second row and both rows
share `chain_id = 1`, contradicting "a chain break is marked exactly when the
gap ... exceeds 3 days" (which predicts chain ids `[1, 2]`). -/
theorem chain_gap_four_no_break :
    ((4 : ℤ) - 0 > 3) ∧ breaks [(0 : ℤ), 4] = [true, false] ∧
      chain_id [(0 : ℤ), 4] = [some 1, some 1] := by
  refine ⟨by decide, by decide, by decide⟩

/-- C1 (amended): in the chain detector shared verbatim by `evaluate_signal`
and `create_backtest_signal`, a chain break is marked exactly at the first
row and where the calendar-day gap to the previous signal-bearing date
exceeds 4 days (equivalently, the day count strictly between them exceeds 3);
`chain_id` equals the running count of break events, hence chain ids are
non-decreasing along ascending dates and increase by exactly 1 at each break. -/
theorem chain_break_and_id_spec (dates : List ℤ) :
    breaks dates = gapBreaks dates ∧
    chain_id dates = (runningCount (breaks dates)).map some ∧
    (∀ i, i < dates.length →
      (runningCount (breaks dates)).get? i =
        some (((breaks dates).take (i + 1)).count true)) ∧
    List.Chain' (fun u v => u ≤ v ∧ (v = u ∨ v = u + 1))
      (runningCount (breaks dates)) := by
  refine ⟨breaks_eq_gapBreaks dates, chain_id_eq_runningCount dates, ?_,
    runningCountAux_chain (breaks dates) 0⟩
  intro i h
  have hlen : i < (breaks dates).length := by rw [breaks_length]; exact h
  simpa using runningCountAux_get? (breaks dates) 0 i hlen

/-- Witness for `chain_break_and_id_spec` at the spec's concrete scenario
dates `[D, D+2, D+10]`. -/
theorem chain_break_and_id_spec_wit :
    (2 < ([(0 : ℤ), 2, 10] : List ℤ).length) ∧
      (runningCount (breaks [(0 : ℤ), 2, 10])).get? 2 =
        some (((breaks [(0 : ℤ), 2, 10]).take 3).count true) :=
  ⟨by decide, (chain_break_and_id_spec [(0 : ℤ), 2, 10]).2.2.1 2 (by decide)⟩

/- ----------------------------------------------------------------- -/
/- C8.  Idempotence of chain detection.                                      -/
/- ----------------------------------------------------------------- -/

/-- C8: re-running the chain detector on the dates and signal types of its own
labeled output reproduces exactly the same `chain_id`, `internal_rn`,
`first_in_chain` and `last_in_chain` assignments (the whole labeled rows are
identical). -/
theorem chainDetect_idempotent (rows : List (ℤ × SigType)) :
    chainDetect ((chainDetect rows).map (fun r => (r.date, r.sig))) =
      chainDetect rows := by
  rw [chainDetect_proj]

/- ----------------------------------------------------------------- -/
/- C2.  Backtest flag placement.  The entry day itself gets
   `internal_rn = 1` and `flag = 1` holds while `internal_rn < days_strategy`,
   so with `days_strategy = 5` and the chain's last signal on day 10 the flag
   is 1 on days 10-13, not on days 11-15.                                    -/
/- ----------------------------------------------------------------- -/

/-- C2, counterexample: in the spec's 30-day scenario (`days_strategy = 5`,
single "down" chain whose last signal date is day 10), the code sets
`flag = 1` already on day 10 (index 9) and `flag = 0` on day 15 (index 14),
contradicting "flag = 1 exactly on days 11 through 15". -/
theorem backtest_flag_scenario_counterexample :
    (backtestFlags scenario30 5).get? 9 = some 1 ∧
      (backtestFlags scenario30 5).get? 14 = some 0 := by
  refine ⟨by decide, by decide⟩

/-- C2 (amended): in the 30-day scenario, `internal_rank` is 1-based starting
on the entry day itself (day 10 has rank 1), `flag = 1` while
`internal_rank < days_strategy`, and therefore `flag = 1` exactly on days
10 through 13 and `flag = 0` on every other day of the window. -/
theorem backtest_flag_scenario :
    backtestFlags scenario30 5 =
        List.replicate 9 0 ++ [1, 1, 1, 1] ++ List.replicate 17 0 ∧
      (btInternalRn scenario30).get? 9 = some (some 1) ∧
      (btInternalRn scenario30).get? 8 = some none := by
  refine ⟨by decide, by decide, by decide⟩


/- ----------------------------------------------------------------- -/
/- C4 and C6.  Cointegration flag and failure propagation.                   -/
/- ----------------------------------------------------------------- -/

/-- C4: whenever `calculate_cointegration` returns a result at all, the flag
is 1 exactly when BOTH `p_value < 0.05` and `coint_t < critical_value` hold,
and 0 exactly when at least one of the two fails (a conjunction, never an
either/or). -/
theorem coint_flag_conjunction (cs : List ℚ → List ℚ → ℚ × ℚ × ℚ)
    (os : List ℚ → List ℚ → ℚ) (s1 s2 : List (Option ℚ)) (flag : ℕ) (hr : ℚ)
    (h : calculate_cointegration cs os s1 s2 = Except.ok (flag, hr)) :
    ∃ c1 c2, seqOpt s1 = some c1 ∧ seqOpt s2 = some c2 ∧
      (flag = 1 ↔ ((cs c1 c2).2.1 < 1/20 ∧ (cs c1 c2).1 < (cs c1 c2).2.2)) ∧
      (flag = 0 ↔ ¬ ((cs c1 c2).2.1 < 1/20 ∧ (cs c1 c2).1 < (cs c1 c2).2.2)) := by
  cases hs1 : seqOpt s1 with
  | none =>
      simp only [calculate_cointegration, cointCall, olsCall, hs1] at h
      exact (Except.noConfusion h)
  | some c1 =>
      cases hs2 : seqOpt s2 with
      | none =>
          simp only [calculate_cointegration, cointCall, olsCall, hs1, hs2] at h
          exact (Except.noConfusion h)
      | some c2 =>
          simp only [calculate_cointegration, cointCall, olsCall, hs1, hs2] at h
          refine ⟨c1, c2, rfl, rfl, ?_⟩
          by_cases hz : zeroVar c1 = true ∨ zeroVar c2 = true
          · rw [if_pos hz] at h
            exact (Except.noConfusion h)
          · rw [if_neg hz, if_neg hz] at h
            simp only [Except.ok.injEq, Prod.mk.injEq] at h
            by_cases hc : (cs c1 c2).2.1 < 1/20 ∧ (cs c1 c2).1 < (cs c1 c2).2.2
            · rw [if_pos hc] at h
              obtain ⟨hf, _⟩ := h
              subst hf
              exact ⟨iff_of_true rfl hc, iff_of_false (by decide) (not_not_intro hc)⟩
            · rw [if_neg hc] at h
              obtain ⟨hf, _⟩ := h
              subst hf
              exact ⟨iff_of_false (by decide) hc, iff_of_true rfl hc⟩

/-- Witness for `coint_flag_conjunction` on a concrete accepted pair. -/
theorem coint_flag_conjunction_wit :
    calculate_cointegration cstatEx ostatEx [some 1, some 3] [some 2, some 5] =
        Except.ok (1, 2) ∧
      (∃ c1 c2, seqOpt [some (1 : ℚ), some 3] = some c1 ∧
        seqOpt [some (2 : ℚ), some 5] = some c2 ∧
        ((1 : ℕ) = 1 ↔ ((cstatEx c1 c2).2.1 < 1/20 ∧
          (cstatEx c1 c2).1 < (cstatEx c1 c2).2.2)) ∧
        ((1 : ℕ) = 0 ↔ ¬ ((cstatEx c1 c2).2.1 < 1/20 ∧
          (cstatEx c1 c2).1 < (cstatEx c1 c2).2.2))) :=
  have h : calculate_cointegration cstatEx ostatEx [some 1, some 3] [some 2, some 5] =
      Except.ok (1, 2) := by
    norm_num [calculate_cointegration, cointCall, olsCall, cstatEx, ostatEx,
      seqOpt, zeroVar, listMean]
  ⟨h, coint_flag_conjunction cstatEx ostatEx [some 1, some 3] [some 2, some 5] 1 2 h⟩

/-- C6: on any input pair where either series contains a non-finite value or
has zero variance, the cointegration stage fails immediately with
`NumericalError`; the `Except.error` result carries no partial data, and the
source contains no handler and no retry around the library calls. -/
theorem coint_numerical_error (cs : List ℚ → List ℚ → ℚ × ℚ × ℚ)
    (os : List ℚ → List ℚ → ℚ) (s1 s2 : List (Option ℚ))
    (h : badInput s1 = true ∨ badInput s2 = true) :
    calculate_cointegration cs os s1 s2 = Except.error CErr.numericalError := by
  cases hs1 : seqOpt s1 with
  | none => simp only [calculate_cointegration, cointCall, olsCall, hs1]
  | some c1 =>
      cases hs2 : seqOpt s2 with
      | none => simp only [calculate_cointegration, cointCall, olsCall, hs1, hs2]
      | some c2 =>
          have hz : zeroVar c1 = true ∨ zeroVar c2 = true := by
            simp only [badInput, hs1, hs2] at h
            exact h
          simp only [calculate_cointegration, cointCall, olsCall, hs1, hs2, if_pos hz]

/-- Witness for `coint_numerical_error`: a series with a NaN entry. -/
theorem coint_numerical_error_wit :
    (badInput [some (1 : ℚ), none] = true ∨ badInput [some (2 : ℚ), some 5] = true) ∧
      calculate_cointegration cstatEx ostatEx [some 1, none] [some 2, some 5] =
        Except.error CErr.numericalError :=
  ⟨Or.inl rfl,
    coint_numerical_error cstatEx ostatEx [some 1, none] [some 2, some 5] (Or.inl rfl)⟩

/- ----------------------------------------------------------------- -/
/- C5 and C9.  Shape and zero-variance behaviour of the rolling z-score.     -/
/- ----------------------------------------------------------------- -/

lemma rollingApply_getD (f : List ℚ → ℚ) (w : ℕ) (xs : List ℚ) (i : ℕ)
    (hi : i < xs.length) :
    (rollingApply f w xs).getD i none =
      if i + 1 < w then none else some (f (windowAt w xs i)) := by
  rw [rollingApply, List.getD_eq_getElem?_getD, List.getElem?_map,
    List.getElem?_range hi]
  rfl

lemma pz_length (window : ℕ) (xs : List ℚ) :
    (produce_zscore window xs).length = xs.length := by
  simp [produce_zscore]

lemma pz_get (window : ℕ) (xs : List ℚ) (i : ℕ) (hi : i < xs.length) :
    (produce_zscore window xs).get? i =
      some (match (rollingApply listMean 1 xs).getD i none,
          (rollingApply listMean window xs).getD i none,
          (rollingApply listSvar window xs).getD i none with
        | some x, some m, some v => zdiv (x - m) v
        | _, _, _ => Fval.nan) := by
  rw [produce_zscore, List.get?_eq_getElem?, List.getElem?_map, List.getElem?_range hi]
  rfl

lemma single_window (xs : List ℚ) : ∀ i : ℕ, i < xs.length →
    windowAt 1 xs i = [xs.getD i 0] := by
  induction xs with
  | nil => intro i hi; simp at hi
  | cons x rest ih =>
      intro i hi
      cases i with
      | zero => rfl
      | succ i =>
          have hi' : i < rest.length := by simpa using hi
          have := ih i hi'
          simp only [windowAt] at this ⊢
          simpa [List.take_succ_cons, List.drop_succ_cons] using this

lemma pz_get_lt (window : ℕ) (xs : List ℚ) (i : ℕ) (hlt : i + 1 < window)
    (hi : i < xs.length) :
    (produce_zscore window xs).get? i = some Fval.nan := by
  rw [pz_get window xs i hi,
    rollingApply_getD listMean window xs i hi, if_pos hlt]
  rcases (rollingApply listMean 1 xs).getD i none with _ | x
  · rfl
  · rfl

lemma pz_get_ge (window : ℕ) (xs : List ℚ) (i : ℕ) (hge : window ≤ i + 1)
    (hi : i < xs.length) :
    (produce_zscore window xs).get? i =
      some (zdiv (xs.getD i 0 - listMean (windowAt window xs i))
        (listSvar (windowAt window xs i))) := by
  have hnlt : ¬ i + 1 < window := by omega
  have h1 : ¬ i + 1 < 1 := by omega
  rw [pz_get window xs i hi,
    rollingApply_getD listMean 1 xs i hi, if_neg h1,
    rollingApply_getD listMean window xs i hi, if_neg hnlt,
    rollingApply_getD listSvar window xs i hi, if_neg hnlt,
    single_window xs i hi]
  have hm : listMean [xs.getD i 0] = xs.getD i 0 := by
    simp [listMean]
  rw [hm]

/-- C5: `produce_zscore` returns one value per input row; the first
`window - 1` values are NaN (mean and std are not yet defined there); and
from index `window - 1` on, the value is the single most recent spread
observation (the size-1 rolling mean equals `xs[i]`) minus the rolling mean
of the last `window` observations, divided by the rolling standard deviation
(square root of `listSvar`) of those observations. -/
theorem produce_zscore_spec (window : ℕ) (xs : List ℚ) :
    (produce_zscore window xs).length = xs.length ∧
    (∀ i, i + 1 < window → i < xs.length →
      (produce_zscore window xs).get? i = some Fval.nan) ∧
    (∀ i, window ≤ i + 1 → i < xs.length →
      (produce_zscore window xs).get? i =
        some (zdiv (xs.getD i 0 - listMean (windowAt window xs i))
          (listSvar (windowAt window xs i)))) :=
  ⟨pz_length window xs,
   fun i hlt hi => pz_get_lt window xs i hlt hi,
   fun i hge hi => pz_get_ge window xs i hge hi⟩

/-- Witness for `produce_zscore_spec` with `window = 2`, `xs = [1, 4]`. -/
theorem produce_zscore_spec_wit :
    (0 + 1 < 2 ∧ 0 < ([(1 : ℚ), 4] : List ℚ).length ∧
      2 ≤ 1 + 1 ∧ 1 < ([(1 : ℚ), 4] : List ℚ).length) ∧
      (produce_zscore 2 [(1 : ℚ), 4]).get? 0 = some Fval.nan ∧
      (produce_zscore 2 [(1 : ℚ), 4]).get? 1 =
        some (zdiv (([(1 : ℚ), 4] : List ℚ).getD 1 0 - listMean (windowAt 2 [(1 : ℚ), 4] 1))
          (listSvar (windowAt 2 [(1 : ℚ), 4] 1))) :=
  ⟨⟨by decide, by decide, by decide, by decide⟩,
   (produce_zscore_spec 2 [(1 : ℚ), 4]).2.1 0 (by decide) (by decide),
   (produce_zscore_spec 2 [(1 : ℚ), 4]).2.2 1 (by decide) (by decide)⟩

lemma list_sum_zero_of_nonneg (l : List ℚ) (hpos : ∀ x ∈ l, 0 ≤ x)
    (hsum : l.sum = 0) : ∀ x ∈ l, x = 0 := by
  induction l with
  | nil => intro x hx; simp at hx
  | cons a rest ih =>
      have ha : 0 ≤ a := hpos a (List.mem_cons_self a rest)
      have hrest : ∀ x ∈ rest, 0 ≤ x := fun x hx => hpos x (List.mem_cons_of_mem a hx)
      have hsum' : a + rest.sum = 0 := by simpa using hsum
      have hrs : 0 ≤ rest.sum := List.sum_nonneg hrest
      have ha0 : a = 0 := by linarith
      have hr0 : rest.sum = 0 := by linarith
      intro x hx
      rcases List.mem_cons.mp hx with h | h
      · rw [h, ha0]
      · exact ih hrest hr0 x h

lemma svar_zero_all_eq_mean (l : List ℚ) (hlen : 2 ≤ l.length)
    (hv : listSvar l = 0) : ∀ x ∈ l, x = listMean l := by
  have hden : (((l.length - 1 : ℕ) : ℚ)) ≠ 0 := by
    have : 1 ≤ l.length - 1 := by omega
    exact_mod_cast Nat.one_le_iff_ne_zero.mp this
  have hS : (l.map (fun x => (x - listMean l) ^ 2)).sum = 0 := by
    rcases div_eq_zero_iff.mp hv with h | h
    · exact h
    · exact absurd h hden
  intro x hx
  have hmem : (x - listMean l) ^ 2 ∈ l.map (fun x => (x - listMean l) ^ 2) :=
    List.mem_map_of_mem _ hx
  have hz : (x - listMean l) ^ 2 = 0 :=
    list_sum_zero_of_nonneg _ (fun y hy => by
      rcases List.mem_map.mp hy with ⟨a, _, ha⟩
      rw [← ha]; positivity) hS _ hmem
  have := pow_eq_zero_iff (n := 2) (by norm_num) |>.mp hz
  linarith [sub_eq_zero.mp this]

lemma windowAt_length (w : ℕ) (xs : List ℚ) (i : ℕ) (hge : w ≤ i + 1)
    (hi : i < xs.length) : (windowAt w xs i).length = w := by
  simp only [windowAt, List.length_drop, List.length_take]
  omega

lemma windowAt_last_mem (w : ℕ) (xs : List ℚ) (i : ℕ) (h1 : 1 ≤ w)
    (hge : w ≤ i + 1) (hi : i < xs.length) :
    xs.getD i 0 ∈ windowAt w xs i := by
  have hget : (windowAt w xs i).get? (w - 1) = xs.get? i := by
    rw [windowAt, List.get?_drop, List.get?_take (by omega : i + 1 - w + (w - 1) < i + 1)]
    congr 1
    omega
  have hx : xs.get? i = some (xs.getD i 0) := by
    rw [List.get?_eq_getElem?, List.getD_eq_getElem?_getD,
      List.getElem?_eq_getElem hi]
    rfl
  exact List.get?_mem (by rw [hget, hx])

/-- C9: at every index where the rolling standard deviation of the spread is
zero (exactly: the rolling sample variance is zero, so all `window` values in
the window are equal), `produce_zscore` yields NaN — the numerator is then
also zero, the float division is `0.0 / 0.0`, and no error is raised. -/
theorem produce_zscore_zero_std (window : ℕ) (xs : List ℚ) (i : ℕ)
    (h2 : 2 ≤ window) (hge : window ≤ i + 1) (hi : i < xs.length)
    (hv : listSvar (windowAt window xs i) = 0) :
    (produce_zscore window xs).get? i = some Fval.nan := by
  rw [pz_get_ge window xs i hge hi]
  have hlen : 2 ≤ (windowAt window xs i).length := by
    rw [windowAt_length window xs i hge hi]; exact h2
  have hmem : xs.getD i 0 ∈ windowAt window xs i :=
    windowAt_last_mem window xs i (by omega) hge hi
  have hx : xs.getD i 0 = listMean (windowAt window xs i) :=
    svar_zero_all_eq_mean _ hlen hv _ hmem
  rw [hx, sub_self, hv]
  simp [zdiv]

/-- Witness for `produce_zscore_zero_std` on the constant spread `[5, 5]`. -/
theorem produce_zscore_zero_std_wit :
    (2 ≤ 2 ∧ 2 ≤ 1 + 1 ∧ 1 < ([(5 : ℚ), 5] : List ℚ).length ∧
      listSvar (windowAt 2 [(5 : ℚ), 5] 1) = 0) ∧
      (produce_zscore 2 [(5 : ℚ), 5]).get? 1 = some Fval.nan :=
  have hv : listSvar (windowAt 2 [(5 : ℚ), 5] 1) = 0 := by
    norm_num [listSvar, listMean, windowAt]
  ⟨⟨by decide, by decide, by decide, hv⟩,
   produce_zscore_zero_std 2 [(5 : ℚ), 5] 1 (by decide) (by decide) (by decide) hv⟩

/- ----------------------------------------------------------------- -/
/- C3, C7 and C10.  Acceptance and representative return.                    -/
/- ----------------------------------------------------------------- -/

lemma seqOpt_some_all (l : List (Option ℚ)) : ∀ xs, seqOpt l = some xs →
    ∀ x ∈ l, ∃ q, x = some q := by
  induction l with
  | nil => intro xs _ x hx; simp at hx
  | cons a rest ih =>
      intro xs hs x hx
      cases a with
      | none => simp [seqOpt] at hs
      | some q =>
          rcases List.mem_cons.mp hx with h | h
          · exact ⟨q, h⟩
          · simp only [seqOpt] at hs
            cases hrest : seqOpt rest with
            | none => rw [hrest] at hs; simp at hs
            | some ys => exact ih ys hrest x h

lemma seqOpt_of_all (l : List (Option ℚ)) (hall : ∀ x ∈ l, ∃ q, x = some q) :
    ∃ xs, seqOpt l = some xs ∧ xs.length = l.length := by
  induction l with
  | nil => exact ⟨[], rfl, rfl⟩
  | cons a rest ih =>
      obtain ⟨q, hq⟩ := hall a (List.mem_cons_self a rest)
      obtain ⟨xs, hxs, hlen⟩ := ih (fun x hx => hall x (List.mem_cons_of_mem a hx))
      subst hq
      refine ⟨q :: xs, ?_, by simp [hlen]⟩
      simp [seqOpt, hxs]

lemma seqOpt_none_of_mem (l : List (Option ℚ)) (hm : none ∈ l) :
    seqOpt l = none := by
  induction l with
  | nil => simp at hm
  | cons a rest ih =>
      rcases List.mem_cons.mp hm with h | h
      · rw [← h]; rfl
      · cases a with
        | none => rfl
        | some q => simp [seqOpt, ih h]

lemma fmean_none_of_mem (l : List (Option ℚ)) (hm : none ∈ l) :
    fmean l = none := by
  rw [fmean, seqOpt_none_of_mem l hm]

lemma eval_unfold (tt : List ℚ → List ℚ → Option ℚ) (th : ℚ) (rows : List VRow)
    (nh : ℕ) (r : EvalResult)
    (h : evaluateSignalStats tt th rows nh = some r) :
    nh ≠ 0 ∧
    r.pscores = (List.range nh).map (fun k =>
      tt (sample rows SigType.up k) (sample rows SigType.down k)) ∧
    r.mediansDown = (List.range nh).map (fun k =>
      npMedianList (sample rows SigType.down k)) ∧
    r.nullHoEval = (match fmean r.pscores with
      | none => false
      | some m => decide (th > m)) ∧
    r.meanMedianReturn =
      (if r.nullHoEval = true then npMedianOpt r.mediansDown else none) := by
  by_cases h0 : nh = 0
  · rw [evaluateSignalStats, if_pos h0] at h
    exact (Option.noConfusion h)
  · rw [evaluateSignalStats, if_neg h0] at h
    have hr := Option.some.inj h
    subst hr
    exact ⟨h0, rfl, rfl, rfl, rfl⟩

/-- C3: `evaluate_signal` accepts (`null_ho_eval = true`) exactly when the
mean of the per-horizon t-test p-values exists (no NaN) and is strictly below
the significance threshold; moreover acceptance is a function of the p-value
vector alone, so the directional median diagnostics (`validations`,
`median_signal_type_eval`), whose gating line is commented out in the source,
never influence the decision. -/
theorem eval_accept_iff (tt : List ℚ → List ℚ → Option ℚ) (th : ℚ)
    (rows : List VRow) (nh : ℕ) (r : EvalResult)
    (h : evaluateSignalStats tt th rows nh = some r) :
    (r.nullHoEval = true ↔ ∃ m, fmean r.pscores = some m ∧ m < th) ∧
    (∀ tt2 rows2 nh2 r2, evaluateSignalStats tt2 th rows2 nh2 = some r2 →
      r2.pscores = r.pscores → r2.nullHoEval = r.nullHoEval) := by
  obtain ⟨-, -, -, hacc, -⟩ := eval_unfold tt th rows nh r h
  constructor
  · rw [hacc]
    cases hm : fmean r.pscores with
    | none =>
        simp only [Bool.false_eq_true, false_iff]
        rintro ⟨m, hm2, -⟩
        exact (Option.noConfusion hm2)
    | some m =>
        simp only [decide_eq_true_eq, gt_iff_lt]
        constructor
        · intro hlt; exact ⟨m, rfl, hlt⟩
        · rintro ⟨m2, hm2, hlt⟩
          obtain rfl := Option.some.inj hm2
          exact hlt
  · intro tt2 rows2 nh2 r2 h2 hps
    obtain ⟨-, -, -, hacc2, -⟩ := eval_unfold tt2 th rows2 nh2 r2 h2
    rw [hacc2, hacc, hps]

lemma sig_ne_du : (SigType.down = SigType.up) = False := by simp

lemma sig_ne_ud : (SigType.up = SigType.down) = False := by simp

lemma evalResEx_eval : evaluateSignalStats ttEx (1/20) rowsEx 1 = some evalResEx := by
  norm_num [evaluateSignalStats, ttEx, rowsEx, evalResEx, sample, fmean, seqOpt,
    npMedianList, npMedianOpt, sortQ, medianOfSorted, oLt, oGt,
    List.filterMap_cons, List.filterMap_nil, sig_ne_du, sig_ne_ud,
    List.insertionSort, List.orderedInsert, List.range_succ]

lemma evalRes10_eval : evaluateSignalStats ttEx (1/20) rowsDownOnly 1 = some evalRes10 := by
  norm_num [evaluateSignalStats, ttEx, rowsDownOnly, evalRes10, sample, fmean, seqOpt,
    npMedianList, npMedianOpt, sortQ, medianOfSorted, oLt, oGt,
    List.filterMap_cons, List.filterMap_nil, sig_ne_du, sig_ne_ud,
    List.insertionSort, List.orderedInsert, List.range_succ]

lemma ttEx_empty : ∀ a b : List ℚ, a = [] ∨ b = [] → ttEx a b = none := by
  intro a b hab
  rcases hab with rfl | rfl
  · cases b <;> rfl
  · cases a <;> rfl

/-- Witness for `eval_accept_iff` on the concrete accepted example. -/
theorem eval_accept_iff_wit :
    evaluateSignalStats ttEx (1/20) rowsEx 1 = some evalResEx ∧
      (evalResEx.nullHoEval = true ↔
        ∃ m, fmean evalResEx.pscores = some m ∧ m < 1/20) :=
  ⟨evalResEx_eval,
   (eval_accept_iff ttEx (1/20) rowsEx 1 evalResEx evalResEx_eval).1⟩

/-- C7: whenever the acceptance decision is false, `mean_median_return` is NaN
(never zero); whenever it is a non-missing number, acceptance was true; and
when acceptance is true it equals `np.median(medians_down)`, the median over
horizons of the per-horizon median forward return of the "down" group, which
is then an actual number. -/
theorem eval_reject_return (tt : List ℚ → List ℚ → Option ℚ) (th : ℚ)
    (rows : List VRow) (nh : ℕ) (r : EvalResult)
    (hT : ∀ a b, a = [] ∨ b = [] → tt a b = none)
    (h : evaluateSignalStats tt th rows nh = some r) :
    (r.nullHoEval = false → r.meanMedianReturn = none) ∧
    (r.meanMedianReturn ≠ none → r.nullHoEval = true) ∧
    (r.nullHoEval = true → ∃ q, r.meanMedianReturn = some q ∧
      npMedianOpt r.mediansDown = some q) := by
  obtain ⟨h0, hps, hmd, hacc, hmmr⟩ := eval_unfold tt th rows nh r h
  have c1 : r.nullHoEval = false → r.meanMedianReturn = none := by
    intro hf
    rw [hmmr, hf]
    simp
  have c3 : r.nullHoEval = true → ∃ q, r.meanMedianReturn = some q ∧
      npMedianOpt r.mediansDown = some q := by
    intro htrue
    have hm : ∃ m, fmean r.pscores = some m := by
      rw [htrue] at hacc
      cases hfm : fmean r.pscores with
      | none => rw [hfm] at hacc; simp at hacc
      | some m => exact ⟨m, rfl⟩
    obtain ⟨m, hm⟩ := hm
    have hsome : ∀ x ∈ r.pscores, ∃ q, x = some q := by
      rw [fmean] at hm
      cases hs : seqOpt r.pscores with
      | none => rw [hs] at hm; exact (Option.noConfusion hm)
      | some xs => exact seqOpt_some_all r.pscores xs hs
    have hdown : ∀ k ∈ List.range nh, sample rows SigType.down k ≠ [] := by
      intro k hk hempty
      have hmem : tt (sample rows SigType.up k) (sample rows SigType.down k)
          ∈ r.pscores := by
        rw [hps]
        exact List.mem_map_of_mem _ hk
      obtain ⟨q, hq⟩ := hsome _ hmem
      rw [hT _ _ (Or.inr hempty)] at hq
      exact (Option.noConfusion hq)
    have hmds : ∀ x ∈ r.mediansDown, ∃ q, x = some q := by
      intro x hx
      rw [hmd] at hx
      obtain ⟨k, hk, hxe⟩ := List.mem_map.mp hx
      refine ⟨medianOfSorted (sortQ (sample rows SigType.down k)), ?_⟩
      rw [← hxe]
      simp only [npMedianList, if_neg (hdown k hk)]
    obtain ⟨ys, hys, hlen⟩ := seqOpt_of_all r.mediansDown hmds
    have hysne : ys ≠ [] := by
      intro hnil
      have : (0 : ℕ) = nh := by
        rw [hnil] at hlen
        rw [hmd] at hlen
        simpa using hlen
      exact h0 this.symm
    have hmo : npMedianOpt r.mediansDown = some (medianOfSorted (sortQ ys)) := by
      simp only [npMedianOpt, hys, npMedianList, if_neg hysne]
    refine ⟨medianOfSorted (sortQ ys), ?_, hmo⟩
    rw [hmmr, htrue, if_pos rfl, hmo]
  refine ⟨c1, ?_, c3⟩
  intro hne
  cases hb : r.nullHoEval with
  | false => exact absurd (c1 hb) hne
  | true => rfl

/-- Witness for `eval_reject_return` on the concrete accepted example. -/
theorem eval_reject_return_wit :
    evaluateSignalStats ttEx (1/20) rowsEx 1 = some evalResEx ∧
      (evalResEx.nullHoEval = true → ∃ q, evalResEx.meanMedianReturn = some q ∧
        npMedianOpt evalResEx.mediansDown = some q) :=
  ⟨evalResEx_eval,
   (eval_reject_return ttEx (1/20) rowsEx 1 evalResEx ttEx_empty evalResEx_eval).2.2⟩

/-- C10: if at some horizon one signal-type group among chain-terminal rows is
empty, the t-test p-value there is NaN, hence the mean p-value is NaN, the
acceptance comparison is false, and the representative return is missing:
`evaluate_signal` never accepts a window lacking terminal signals of both
types. -/
theorem eval_empty_group (tt : List ℚ → List ℚ → Option ℚ) (th : ℚ)
    (rows : List VRow) (nh : ℕ) (r : EvalResult) (j : ℕ)
    (hT : ∀ a b, a = [] ∨ b = [] → tt a b = none)
    (h : evaluateSignalStats tt th rows nh = some r)
    (hj : j < nh)
    (he : sample rows SigType.up j = [] ∨ sample rows SigType.down j = []) :
    r.pscores.get? j = some none ∧ r.nullHoEval = false ∧
      r.meanMedianReturn = none := by
  obtain ⟨h0, hps, hmd, hacc, hmmr⟩ := eval_unfold tt th rows nh r h
  have hj2 : r.pscores.get? j =
      some (tt (sample rows SigType.up j) (sample rows SigType.down j)) := by
    rw [hps, List.get?_eq_getElem?, List.getElem?_map, List.getElem?_range hj]
    rfl
  have hpj : r.pscores.get? j = some none := by rw [hj2, hT _ _ he]
  have hmemnone : (none : Option ℚ) ∈ r.pscores := List.get?_mem hpj
  have haccf : r.nullHoEval = false := by
    rw [hacc, fmean_none_of_mem _ hmemnone]
  refine ⟨hpj, haccf, ?_⟩
  rw [hmmr, haccf]
  simp

/-- Witness for `eval_empty_group`: rows whose only signals are "down". -/
theorem eval_empty_group_wit :
    ((0 : ℕ) < 1 ∧ sample rowsDownOnly SigType.up 0 = []) ∧
      evaluateSignalStats ttEx (1/20) rowsDownOnly 1 = some evalRes10 ∧
      (evalRes10.pscores.get? 0 = some none ∧ evalRes10.nullHoEval = false ∧
        evalRes10.meanMedianReturn = none) :=
  have hup : sample rowsDownOnly SigType.up 0 = [] := by
    simp [sample, rowsDownOnly, sig_ne_du]
  ⟨⟨by decide, hup⟩, evalRes10_eval,
   eval_empty_group ttEx (1/20) rowsDownOnly 1 evalRes10 0 ttEx_empty
     evalRes10_eval (by decide) (Or.inl hup)⟩
